import Mathlib

/-!
# Verification of the bulk Google-Trends fetch pipeline (`app.py`)

A shallow embedding of the data-wrangling logic of `app.py`:

* `get_timeframe_string` — the timeframe mapper (lines 12-23);
* `chunkList` — the batching step `[queries[i:i+5] for i in range(0, len(queries), 5)]`
  of `fetch_trends_data` (lines 35-36);
* `DTable` and `concatDedup` — a model of the pandas data frames and of
  `pd.concat(all_data, axis=1)` followed by
  `final_df.loc[:, ~final_df.columns.duplicated()]` (lines 73-75);
* `toCsv` / `parseDoc` — `final_df.to_csv().encode('utf-8')` (line 158) and a
  CSV reader for the round-trip property;
* `loadQueries` — `data.iloc[:, 0].dropna().astype(str).str.strip().tolist()`
  (line 130);
* `fetch_trends_data` / `runMain` — the batch loop with its progress and error
  events (lines 45-78) and the post-upload control flow of `main`
  (lines 126-170), with the external pytrends client abstracted as an oracle
  `fetchO : List String → String → Except String DTable`.

Machine integers do not occur (all counts are small naturals); interest scores
are modelled as integers (pandas may widen them to floats after an outer join,
but no claim concerns cell values).
-/

/-! ## Query loader (app.py line 130)

`data.iloc[:, 0].dropna().astype(str).str.strip().tolist()`: the first column
is a list of optional cells (`none` = NaN after `pd.read_csv`), `dropna`
removes the missing ones, `str.strip` trims whitespace from both ends.
-/

/-- Python `str.strip()` whitespace (ASCII fragment): space, tab, newline,
carriage return, vertical tab (11) and form feed (12). -/
def isSpc (c : Char) : Bool :=
  c = ' ' || c = '\t' || c = '\n' || c = '\r' || c.toNat = 11 || c.toNat = 12

/-- Trim `isSpc` characters from both ends of a character list
(Python `str.strip()`). -/
def trimChars (l : List Char) : List Char :=
  ((l.dropWhile isSpc).reverse.dropWhile isSpc).reverse

/-- `str.strip()` on a string. -/
def strip (s : String) : String := String.mk (trimChars s.data)

/-- `app.py` line 130: drop missing cells of the first column, trim the rest.
`astype(str)` is implicit: cells are already carried as strings. -/
def loadQueries (col0 : List (Option String)) : List String :=
  (col0.filterMap id).map strip

/-! ## Timeframe mapper (app.py lines 12-23) -/

/-- `get_timeframe_string(months)`: `'today 12-m'` for 12, `'today 24-m'` for
24, and the 12-month default for any other value.  (`datetime.now()` on line 14
is computed but never used.)  Total by construction. -/
def get_timeframe_string (months : Int) : String :=
  if months = 12 then "today 12-m"
  else if months = 24 then "today 24-m"
  else "today 12-m"

/-! ## Batcher (app.py lines 35-36)

`query_chunks = [queries[i:i + chunk_size] for i in range(0, len(queries), chunk_size)]`
with `chunk_size = 5`.  The slice comprehension is the same function as taking
the first five elements and recursing on the rest. -/

/-- The chunking step of `fetch_trends_data`, batch size 5. -/
def chunkList {α : Type} : List α → List (List α)
  | [] => []
  | x :: xs => ((x :: xs).take 5) :: chunkList ((x :: xs).drop 5)
termination_by l => l.length
decreasing_by simp [List.length_drop]; omega

/-! ## Tables and the merger (app.py lines 58-60 and 71-78)

A pandas `DataFrame` as returned by `pytrends.interest_over_time()`: a named
date index and a list of columns, each a name paired with the values aligned
positionally with the index.  Column names may repeat (pandas permits
duplicate column labels). -/

/-- A data frame: index name (`date` for pytrends), index values (dates as
strings), and columns `(name, values)` with `values` aligned with `idx`.
A missing cell (NaN) is `none`. -/
structure DTable where
  idxName : String
  idx : List String
  cols : List (String × List (Option Int))
deriving DecidableEq, Inhabited, Repr

/-- First position of `d` in an index (pandas aligns on the first match). -/
def idxPos (d : String) : List String → Option Nat
  | [] => none
  | x :: xs => if x = d then some 0 else (idxPos d xs).map (· + 1)

/-- Reindex a table's columns onto `newIdx`: a row absent from the table's own
index becomes a missing value (`pd.concat` outer-join semantics). -/
def reindexedCols (newIdx : List String) (t : DTable) :
    List (String × List (Option Int)) :=
  t.cols.map (fun c =>
    (c.1, newIdx.map (fun d =>
      match idxPos d t.idx with
      | some i => c.2.getD i none
      | none => none)))

/-- Lexicographic strict order on character lists, for the sorted index
union of `pd.concat`. -/
def lexLt : List Char → List Char → Bool
  | [], [] => false
  | [], _ :: _ => true
  | _ :: _, [] => false
  | a :: as, b :: bs => if a < b then true else if b < a then false else lexLt as bs

/-- Insert into a `lexLt`-sorted list of strings. -/
def insertSorted (a : String) : List String → List String
  | [] => [a]
  | b :: l => if lexLt a.data b.data then a :: b :: l else b :: insertSorted a l

/-- Sort strings lexicographically. -/
def sortStrings (l : List String) : List String := l.foldr insertSorted []

/-- Keep the first occurrence of each string. -/
def dedupSeen (seen : List String) : List String → List String
  | [] => []
  | x :: xs => if seen.contains x then dedupSeen seen xs
               else x :: dedupSeen (x :: seen) xs

/-- The index of `pd.concat(ts, axis=1)`: the common index when all tables
agree, otherwise the sorted union (outer join). -/
def concatIdx (ts : List DTable) : List String :=
  match ts with
  | [] => []
  | t :: rest =>
      if rest.all (fun u => u.idx = t.idx) then t.idx
      else sortStrings (dedupSeen [] ((t :: rest).flatMap (fun u => u.idx)))

/-- The column list of `pd.concat(ts, axis=1)` (app.py line 73): every table's
columns reindexed onto the common index, concatenated left to right in batch
order. -/
def concatCols (ts : List DTable) : List (String × List (Option Int)) :=
  ts.flatMap (reindexedCols (concatIdx ts))

/-- `final_df.loc[:, ~final_df.columns.duplicated()]` (app.py line 75): scan
left to right and keep a column only when its name has not been seen yet. -/
def dedupColsAux (seen : List String) :
    List (String × List (Option Int)) → List (String × List (Option Int))
  | [] => []
  | c :: cs => if seen.contains c.1 then dedupColsAux seen cs
               else c :: dedupColsAux (c.1 :: seen) cs

/-- The merger (app.py lines 73-75): side-by-side concatenation on the shared
date index, then duplicate-column removal.  The index name is the first
table's (pandas keeps the common `date` name). -/
def concatDedup (ts : List DTable) : DTable :=
  { idxName := (ts.headD default).idxName
    idx := concatIdx ts
    cols := dedupColsAux [] (concatCols ts) }

/-- `data.drop(columns=['isPartial'])` guarded by membership
(app.py lines 59-60): removes every column so named, and is the identity when
none is present. -/
def dropPartialCol (t : DTable) : DTable :=
  { t with cols := t.cols.filter (fun c => c.1 ≠ "isPartial") }

/-! ## CSV export (app.py line 158) and a CSV reader

`final_df.to_csv().encode('utf-8')` with pandas defaults: separator `,`,
line terminator `\n` after every row, empty string for missing values,
minimal quoting (a field is quoted exactly when it contains the separator,
the quote character or a line break; quote characters are doubled).  The
header row is the index name followed by the column names; each data row is
the index value followed by the cells.  The byte payload is the UTF-8
encoding of the rendered text; the model stops at the text, whose UTF-8
encoding is injective. -/

/-- Minimal quoting: a field needs quotes when it contains the separator, the
quote character, or a line break. -/
def needsQuote (f : List Char) : Bool :=
  f.any (fun c => c = ',' || c = '"' || c = '\n' || c = '\r')

/-- Double every quote character (CSV escaping inside a quoted field). -/
def escField : List Char → List Char
  | [] => []
  | c :: cs => if c = '"' then '"' :: '"' :: escField cs else c :: escField cs

/-- Render one field with minimal quoting. -/
def quoteField (f : List Char) : List Char :=
  if needsQuote f then '"' :: (escField f ++ ['"']) else f

/-- Render one record: fields joined by commas. -/
def renderRecord : List (List Char) → List Char
  | [] => []
  | [f] => quoteField f
  | f :: rest => quoteField f ++ ',' :: renderRecord rest

/-- Render a document: every record is terminated by a newline
(pandas `to_csv` ends each row, the last included, with `\n`). -/
def renderDoc (rs : List (List (List Char))) : List Char :=
  (rs.map (fun r => renderRecord r ++ ['\n'])).flatten

/-- A cell: missing values render as the empty string (`na_rep=''`). -/
def renderCell : Option Int → List Char
  | none => []
  | some n => (toString n).data

/-- The records of `t.to_csv()`: header (index name, then column names),
then one record per index entry (index value, then the cells of that row). -/
def tableRecords (T : DTable) : List (List (List Char)) :=
  (T.idxName.data :: T.cols.map (fun c => c.1.data)) ::
    T.idx.enum.map (fun p =>
      p.2.data :: T.cols.map (fun c => renderCell (c.2.getD p.1 none)))

/-- `final_df.to_csv()` (app.py line 158) as text. -/
def toCsv (T : DTable) : String := String.mk (renderDoc (tableRecords T))

/-- Modelled from the spec: the repository only writes CSV (`to_csv`, line
158); the reader that "parses the payload back" for the round-trip property
in §8 of the spec is not part of the source.  It is the standard CSV reader:
a character-level state machine over the text, fields split on unquoted
commas, records on unquoted newlines, doubled quotes inside a quoted field
read back as one quote character. -/
inductive CMode where
  | start   -- at the beginning of a field
  | raw     -- inside an unquoted field
  | quoted  -- inside a quoted field
  | postq   -- just after a quote character inside a quoted field
deriving DecidableEq, Repr

/-- Reader state: current field, fields of the current record, finished
records. -/
structure CState where
  mode : CMode
  cur : List Char
  curRec : List (List Char)
  recs : List (List (List Char))
deriving DecidableEq, Repr

/-- One character of CSV reading. -/
def csvStep (s : CState) (c : Char) : CState :=
  match s.mode with
  | CMode.start =>
      if c = '"' then { s with mode := CMode.quoted }
      else if c = ',' then { s with curRec := s.curRec ++ [s.cur], cur := [] }
      else if c = '\n' then
        { mode := CMode.start, cur := [], curRec := [],
          recs := s.recs ++ [s.curRec ++ [s.cur]] }
      else { s with mode := CMode.raw, cur := s.cur ++ [c] }
  | CMode.raw =>
      if c = ',' then
        { mode := CMode.start, cur := [], curRec := s.curRec ++ [s.cur], recs := s.recs }
      else if c = '\n' then
        { mode := CMode.start, cur := [], curRec := [],
          recs := s.recs ++ [s.curRec ++ [s.cur]] }
      else { s with cur := s.cur ++ [c] }
  | CMode.quoted =>
      if c = '"' then { s with mode := CMode.postq }
      else { s with cur := s.cur ++ [c] }
  | CMode.postq =>
      if c = '"' then { s with mode := CMode.quoted, cur := s.cur ++ ['"'] }
      else if c = ',' then
        { mode := CMode.start, cur := [], curRec := s.curRec ++ [s.cur], recs := s.recs }
      else if c = '\n' then
        { mode := CMode.start, cur := [], curRec := [],
          recs := s.recs ++ [s.curRec ++ [s.cur]] }
      else { s with cur := s.cur ++ [c] }

/-- Initial reader state. -/
def csvInit : CState :=
  { mode := CMode.start, cur := [], curRec := [], recs := [] }

/-- Read a whole document into records; a final record without a trailing
newline is flushed. -/
def parseDoc (l : List Char) : List (List (List Char)) :=
  let s := l.foldl csvStep csvInit
  if s.mode = CMode.start ∧ s.cur = [] ∧ s.curRec = [] then s.recs
  else s.recs ++ [s.curRec ++ [s.cur]]

/-- Header row of a parsed CSV text. -/
def parsedHeader (s : String) : List String :=
  ((parseDoc s.data).headD []).map String.mk

/-- Index name read back from a CSV text. -/
def parsedIdxName (s : String) : String := (parsedHeader s).headD ""

/-- Column names read back from a CSV text. -/
def parsedColNames (s : String) : List String := (parsedHeader s).tail

/-- Index values read back from a CSV text (first field of each data row). -/
def parsedIdx (s : String) : List String :=
  (parseDoc s.data).tail.map (fun r => String.mk (r.headD []))

/-! ## The fetch loop (app.py lines 26-78) and the main flow (lines 126-170)

The external pytrends calls (`build_payload` + `interest_over_time`, lines
53-56) are abstracted as an oracle
`fetchO : List String → String → Except String DTable` taking the chunk and
the timeframe string; `Except.error` is the `except Exception` branch of
lines 64-66.  The Streamlit UI calls become an event trace:
`Ev.report` is the progress update of lines 48-50 (progress bar plus status
text, carrying `i + 1`, the chunk total and the chunk), `Ev.fetched` /
`Ev.fetchError` record the outcome of each chunk's pytrends call in program
order.  `@st.cache_data` only memoizes the function and does not change its
value. -/

/-- Observable events of one pipeline run. -/
inductive Ev where
  | report (done total : Nat) (chunk : List String)
  | fetched (chunk : List String)
  | fetchError (chunk : List String) (msg : String)
deriving DecidableEq, Repr

/-- The `for i, chunk in enumerate(query_chunks)` loop (lines 45-66): each
iteration first reports progress, then attempts the fetch; a success appends
the table with its `isPartial` column removed, a failure reports the error
and continues with the next chunk. -/
def fetchLoop (fetchO : List String → String → Except String DTable)
    (tf : String) (total : Nat) : Nat → List (List String) → List Ev × List DTable
  | _, [] => ([], [])
  | i, chunk :: rest =>
      let r := fetchLoop fetchO tf total (i + 1) rest
      match fetchO chunk tf with
      | Except.ok t =>
          (Ev.report (i + 1) total chunk :: Ev.fetched chunk :: r.1,
           dropPartialCol t :: r.2)
      | Except.error e =>
          (Ev.report (i + 1) total chunk :: Ev.fetchError chunk e :: r.1, r.2)

/-- `fetch_trends_data(queries, months)` (lines 26-78): chunk the queries,
run the loop, and if any table was collected, concatenate side by side and
drop duplicate columns; otherwise return `None`. -/
def fetch_trends_data (fetchO : List String → String → Except String DTable)
    (queries : List String) (months : Int) : List Ev × Option DTable :=
  let chunks := chunkList queries
  let tf := get_timeframe_string months
  let r := fetchLoop fetchO tf chunks.length 0 chunks
  (r.1, if r.2.isEmpty then none else some (concatDedup r.2))

/-- Outcome of the post-upload logic of `main` (lines 126-170). -/
inductive MainOut where
  | emptyInput                          -- `st.error(...)` then `return`, line 133-134
  | noData                              -- `st.warning("No data could be fetched...")`, line 170
  | success (df : DTable) (csv : String)  -- table shown, CSV download offered
deriving DecidableEq

/-- The post-upload, post-button logic of `main` (lines 126-170): load the
queries from the first column; with zero queries show the empty-input error
and return (no fetch); otherwise fetch, and either offer the merged table
with its CSV payload for download or warn that no data could be fetched. -/
def runMain (fetchO : List String → String → Except String DTable)
    (months : Int) (col0 : List (Option String)) : MainOut × List Ev :=
  let queries := loadQueries col0
  if queries = [] then (MainOut.emptyInput, [])
  else
    let r := fetch_trends_data fetchO queries months
    match r.2 with
    | some df => (MainOut.success df (toCsv df), r.1)
    | none => (MainOut.noData, r.1)

/-- The ordering asserted by the progress-reporter contract: every `report`
for a chunk occurs only after that chunk's fetch outcome
(`fetched`/`fetchError`) is already in the trace. -/
def reportsAfterFetch (seen : List (List String)) : List Ev → Bool
  | [] => true
  | Ev.report _ _ c :: rest => seen.contains c && reportsAfterFetch seen rest
  | Ev.fetched c :: rest => reportsAfterFetch (c :: seen) rest
  | Ev.fetchError c _ :: rest => reportsAfterFetch (c :: seen) rest

/-- The successfully fetched tables of a run, in chunk order, each with its
`isPartial` column removed. -/
def successTables (fetchO : List String → String → Except String DTable)
    (tf : String) (chunks : List (List String)) : List DTable :=
  chunks.filterMap (fun c =>
    match fetchO c tf with
    | Except.ok t => some (dropPartialCol t)
    | Except.error _ => none)

/-- The event trace of the loop, described directly: for the `i`-th chunk a
progress report, then its fetch outcome. -/
def loopTrace (fetchO : List String → String → Except String DTable)
    (tf : String) (total : Nat) (chunks : List (List String)) : List Ev :=
  (chunks.enum.map (fun p =>
    [Ev.report (p.1 + 1) total p.2,
     match fetchO p.2 tf with
     | Except.ok _ => Ev.fetched p.2
     | Except.error e => Ev.fetchError p.2 e])).flatten

/-! ## Concrete inputs used by witnesses and counterexamples -/

/-- An oracle for which every pytrends call fails (e.g. every chunk is
rate-limited). -/
def alwaysFail : List String → String → Except String DTable :=
  fun _ _ => Except.error "429"

/-- Is an event a progress report? -/
def isReportEv : Ev → Bool
  | Ev.report _ _ _ => true
  | _ => false

/-- A table with two columns that share the name `a` (pandas permits
duplicate column labels). -/
def dupTable : DTable := ⟨"date", ["d1"], [("a", [some 1]), ("a", [some 2])]⟩

/-- A one-column table named `b`, disjoint from `dupTable`. -/
def otherTable : DTable := ⟨"date", ["d1"], [("b", [some 3])]⟩

/-- A one-column table named `a`. -/
def wTable1 : DTable := ⟨"date", ["d1"], [("a", [some 7])]⟩

/-- A one-column table named `b` on the same index as `wTable1`. -/
def wTable2 : DTable := ⟨"date", ["d1"], [("b", [some 9])]⟩

/-! # Theorems

Helper lemmas first, then one theorem per specification claim. -/

/-! ## Batcher lemmas and claim C1 -/

theorem chunkList_nil {α : Type} : chunkList ([] : List α) = [] := by
  simp [chunkList]

theorem chunkList_cons {α : Type} (x : α) (xs : List α) :
    chunkList (x :: xs) = ((x :: xs).take 5) :: chunkList ((x :: xs).drop 5) := by
  rw [chunkList]

theorem chunkList_length {α : Type} (l : List α) :
    (chunkList l).length = (l.length + 4) / 5 := by
  induction l using chunkList.induct with
  | case1 => simp [chunkList]
  | case2 x xs ih =>
      rw [chunkList_cons]
      simp only [List.length_cons, List.length_drop] at *
      omega

theorem chunkList_flatten {α : Type} (l : List α) :
    (chunkList l).flatten = l := by
  induction l using chunkList.induct with
  | case1 => simp [chunkList]
  | case2 x xs ih =>
      rw [chunkList_cons]
      simp only [List.flatten_cons, ih, List.take_append_drop]

theorem chunkList_mem_length {α : Type} (l : List α) :
    ∀ b ∈ chunkList l, b.length ≤ 5 := by
  induction l using chunkList.induct with
  | case1 => simp [chunkList]
  | case2 x xs ih =>
      rw [chunkList_cons]
      intro b hb
      rcases List.mem_cons.1 hb with h | h
      · subst h; simp
      · exact ih b h

theorem chunkList_eq_nil_iff {α : Type} (l : List α) :
    chunkList l = [] ↔ l = [] := by
  cases l with
  | nil => simp [chunkList]
  | cons x xs => rw [chunkList_cons]; simp

theorem chunkList_full {α : Type} (l : List α) :
    ∀ i, i + 1 < (chunkList l).length → ((chunkList l).getD i []).length = 5 := by
  induction l using chunkList.induct with
  | case1 => simp [chunkList]
  | case2 x xs ih =>
      rw [chunkList_cons]
      intro i hi
      cases i with
      | zero =>
          simp only [List.length_cons] at hi
          have hne : chunkList ((x :: xs).drop 5) ≠ [] := by
            intro h; rw [h] at hi; simp at hi
          have hd : (x :: xs).drop 5 ≠ [] := by
            intro h
            exact hne ((chunkList_eq_nil_iff _).2 h)
          have hlen : 5 < (x :: xs).length := by
            by_contra hle
            exact hd (List.drop_eq_nil_of_le (by omega))
          simp only [List.getD, List.get?_cons_zero, Option.getD_some,
            List.length_take]
          omega
      | succ j =>
          simp only [List.length_cons] at hi
          have := ih j (by omega)
          simpa using this

/-- **C1.** For every query list of length `L`, the chunking step of
`fetch_trends_data` with batch size 5 produces exactly `⌈L/5⌉` batches, every
batch has length at most 5, every batch except possibly the last has length
exactly 5, and concatenating the batches in order reconstructs the list. -/
theorem batcher_chunks_spec (qs : List String) :
    (chunkList qs).length = (qs.length + 4) / 5 ∧
    (∀ b ∈ chunkList qs, b.length ≤ 5) ∧
    (∀ i, i + 1 < (chunkList qs).length → ((chunkList qs).getD i []).length = 5) ∧
    (chunkList qs).flatten = qs :=
  ⟨chunkList_length qs, chunkList_mem_length qs, chunkList_full qs,
   chunkList_flatten qs⟩

/-- Witness for C1 at a concrete seven-query list. -/
theorem batcher_chunks_spec_witness :
    (chunkList ["a", "b", "c", "d", "e", "f", "g"]).length = (7 + 4) / 5 ∧
    ((chunkList ["a", "b", "c", "d", "e", "f", "g"]).getD 0 []).length = 5 ∧
    (chunkList ["a", "b", "c", "d", "e", "f", "g"]).flatten = ["a", "b", "c", "d", "e", "f", "g"] :=
  ⟨(batcher_chunks_spec ["a", "b", "c", "d", "e", "f", "g"]).1,
   (batcher_chunks_spec ["a", "b", "c", "d", "e", "f", "g"]).2.2.1 0
     (by rw [chunkList_length]; decide),
   (batcher_chunks_spec ["a", "b", "c", "d", "e", "f", "g"]).2.2.2⟩

/-! ## Claim C10: the timeframe mapper -/

/-- **C10.** `get_timeframe_string` is total over the integers, returns
`'today 12-m'` for every input other than 24 (0 and negative values
included), and returns `'today 24-m'` exactly on input 24. -/
theorem timeframe_total_default (m : Int) :
    (m ≠ 24 → get_timeframe_string m = "today 12-m") ∧
    (get_timeframe_string m = "today 24-m" ↔ m = 24) := by
  constructor
  · intro h
    by_cases h12 : m = 12
    · simp [get_timeframe_string, h12]
    · simp [get_timeframe_string, h12, h]
  · constructor
    · intro h
      by_cases h24 : m = 24
      · exact h24
      · by_cases h12 : m = 12
        · simp only [get_timeframe_string, if_pos h12] at h
          exact absurd h (by decide)
        · simp only [get_timeframe_string, if_neg h12, if_neg h24] at h
          exact absurd h (by decide)
    · intro h
      simp [get_timeframe_string, h]

/-- Witness for C10 at inputs 0 and 24. -/
theorem timeframe_total_default_witness :
    get_timeframe_string 0 = "today 12-m" ∧ get_timeframe_string 24 = "today 24-m" :=
  ⟨(timeframe_total_default 0).1 (by decide),
   (timeframe_total_default 24).2.2 rfl⟩

/-! ## Loader lemmas and claim C3 -/

theorem dropWhile_head_not {α : Type} (p : α → Bool) (l : List α) :
    ∀ c, (l.dropWhile p).head? = some c → p c = false := by
  induction l with
  | nil => intro c h; simp at h
  | cons x xs ih =>
      intro c h
      by_cases hp : p x
      · rw [List.dropWhile_cons, if_pos hp] at h
        exact ih c h
      · rw [List.dropWhile_cons, if_neg hp] at h
        simp only [List.head?_cons, Option.some.injEq] at h
        subst h
        exact Bool.eq_false_iff.2 hp

theorem dropWhile_getLast_of_ne_nil {α : Type} (p : α → Bool) (l : List α)
    (h : l.dropWhile p ≠ []) : (l.dropWhile p).getLast? = l.getLast? := by
  induction l with
  | nil => simp at h
  | cons x xs ih =>
      by_cases hp : p x
      · rw [List.dropWhile_cons, if_pos hp] at h ⊢
        cases hxs : xs with
        | nil => subst hxs; simp at h
        | cons y ys =>
            rw [List.getLast?_cons_cons]
            rw [hxs] at h ih
            exact ih h
      · rw [List.dropWhile_cons, if_neg hp]

theorem trimChars_head (l : List Char) :
    ∀ c, (trimChars l).head? = some c → isSpc c = false := by
  intro c h
  unfold trimChars at h
  rw [List.head?_reverse] at h
  have hne : (((l.dropWhile isSpc).reverse).dropWhile isSpc) ≠ [] := by
    intro hn; rw [hn] at h; simp at h
  rw [dropWhile_getLast_of_ne_nil isSpc _ hne, List.getLast?_reverse] at h
  exact dropWhile_head_not isSpc l c h

theorem trimChars_last (l : List Char) :
    ∀ c, (trimChars l).getLast? = some c → isSpc c = false := by
  intro c h
  unfold trimChars at h
  rw [List.getLast?_reverse] at h
  exact dropWhile_head_not isSpc _ c h

/-- **C3, counterexample.** The claim says every loaded query is a trimmed,
non-empty string; but a cell containing only whitespace survives `dropna()`
and is stripped to the empty string, so the loaded list can contain `""`. -/
theorem loader_empty_string_cex :
    ¬ (∀ q ∈ loadQueries [some " "], q ≠ "") := by decide

/-- **C3, amended.** The Query Loader takes the first column, drops
absent/missing cells and trims whitespace from the remaining cells, yielding
an ordered sequence in which every query is a trimmed — but possibly empty —
string, preserving source-row order and retaining duplicates (the `i`-th
loaded query is the stripped `i`-th present cell). -/
theorem loader_trimmed_ordered (col0 : List (Option String)) :
    (∀ q ∈ loadQueries col0,
      (∀ c, q.data.head? = some c → isSpc c = false) ∧
      (∀ c, q.data.getLast? = some c → isSpc c = false)) ∧
    (∀ i : Nat, (loadQueries col0)[i]? = ((col0.filterMap id)[i]?).map strip) := by
  constructor
  · intro q hq
    rcases List.mem_map.1 hq with ⟨s, _, rfl⟩
    exact ⟨trimChars_head s.data, trimChars_last s.data⟩
  · intro i
    simp [loadQueries, List.getElem?_map]

/-- Witness for C3 (amended) at a concrete column: the loaded query `"a"`
(from the cell `" a "`) starts with a non-space character, and the first
loaded query is the stripped first present cell. -/
theorem loader_trimmed_ordered_witness :
    isSpc 'a' = false ∧
    (loadQueries [some " a ", none])[0]? =
      (([some " a ", none].filterMap id)[0]?).map strip :=
  ⟨((loader_trimmed_ordered [some " a ", none]).1 (strip " a ")
      (by decide)).1 'a' (by decide),
   (loader_trimmed_ordered [some " a ", none]).2 0⟩

/-! ## Fetch-loop lemmas and claims C4, C5, C6, C8 -/

theorem fetchLoop_eq (fetchO : List String → String → Except String DTable)
    (tf : String) (total : Nat) :
    ∀ (cs : List (List String)) (i : Nat),
      fetchLoop fetchO tf total i cs =
        (((cs.enumFrom i).map (fun p =>
          [Ev.report (p.1 + 1) total p.2,
           match fetchO p.2 tf with
           | Except.ok _ => Ev.fetched p.2
           | Except.error e => Ev.fetchError p.2 e])).flatten,
         successTables fetchO tf cs) := by
  intro cs
  induction cs with
  | nil => intro i; simp [fetchLoop, successTables]
  | cons c rest ih =>
      intro i
      cases hc : fetchO c tf with
      | ok t =>
          simp [fetchLoop, hc, List.enumFrom_cons, successTables,
            List.filterMap_cons, ih (i + 1)]
      | error e =>
          simp [fetchLoop, hc, List.enumFrom_cons, successTables,
            List.filterMap_cons, ih (i + 1)]

theorem fetchLoop_report_count (fetchO : List String → String → Except String DTable)
    (tf : String) (total : Nat) :
    ∀ (cs : List (List String)) (i : Nat),
      ((fetchLoop fetchO tf total i cs).1.filter isReportEv).length = cs.length := by
  intro cs
  induction cs with
  | nil => intro i; simp [fetchLoop]
  | cons c rest ih =>
      intro i
      cases hc : fetchO c tf with
      | ok t => simp [fetchLoop, hc, isReportEv, ih (i + 1)]
      | error e => simp [fetchLoop, hc, isReportEv, ih (i + 1)]

theorem fetchLoop_terminal (fetchO : List String → String → Except String DTable)
    (tf : String) (total : Nat) :
    ∀ (cs : List (List String)) (i : Nat) (c : List String), c ∈ cs →
      (∀ t, fetchO c tf = Except.ok t → Ev.fetched c ∈ (fetchLoop fetchO tf total i cs).1) ∧
      (∀ e, fetchO c tf = Except.error e →
        Ev.fetchError c e ∈ (fetchLoop fetchO tf total i cs).1) := by
  intro cs
  induction cs with
  | nil => intro i c hc; simp at hc
  | cons d rest ih =>
      intro i c hc
      rcases List.mem_cons.1 hc with h | h
      · subst h
        constructor
        · intro t ht; simp [fetchLoop, ht]
        · intro e he; simp [fetchLoop, he]
      · constructor
        · intro t ht
          have hmem := (ih (i + 1) c h).1 t ht
          cases hd : fetchO d tf with
          | ok u => simp [fetchLoop, hd, hmem]
          | error e => simp [fetchLoop, hd, hmem]
        · intro e he
          have hmem := (ih (i + 1) c h).2 e he
          cases hd : fetchO d tf with
          | ok u => simp [fetchLoop, hd, hmem]
          | error f => simp [fetchLoop, hd, hmem]

theorem successTables_eq_nil (fetchO : List String → String → Except String DTable)
    (tf : String) :
    ∀ cs, (∀ c ∈ cs, ∃ e, fetchO c tf = Except.error e) →
      successTables fetchO tf cs = [] := by
  intro cs
  induction cs with
  | nil => intro _; simp [successTables]
  | cons c rest ih =>
      intro h
      rcases h c (List.mem_cons_self c rest) with ⟨e, he⟩
      have hr := ih (fun d hd => h d (List.mem_cons_of_mem c hd))
      simp only [successTables, List.filterMap_cons, he] at hr ⊢
      exact hr

/-- **C4.** With zero loaded queries the pipeline shows the empty-input error
and returns before the fetch phase: the outcome is `MainOut.emptyInput` and
the event trace is empty — no progress report and no call to the trends
client ever happens. -/
theorem empty_input_no_fetch (fetchO : List String → String → Except String DTable)
    (months : Int) (col0 : List (Option String)) (h : loadQueries col0 = []) :
    runMain fetchO months col0 = (MainOut.emptyInput, []) := by
  simp [runMain, h]

/-- Witness for C4: a column whose only cell is missing. -/
theorem empty_input_no_fetch_witness :
    runMain alwaysFail 12 [none] = (MainOut.emptyInput, []) :=
  empty_input_no_fetch alwaysFail 12 [none] rfl

/-- **C5.** Partial-success policy of the fetch loop: every batch is
processed (one progress report per batch, so a failure never aborts the
loop), every failing batch leaves its error event in the trace, and the
final result is assembled from the successfully fetched tables only — a
failed batch contributes no columns and the other batches' tables are
untouched. -/
theorem failed_batch_skipped_pipeline_continues
    (fetchO : List String → String → Except String DTable)
    (qs : List String) (months : Int) :
    ((fetch_trends_data fetchO qs months).1.filter isReportEv).length =
      (chunkList qs).length ∧
    (∀ c ∈ chunkList qs, ∀ e, fetchO c (get_timeframe_string months) = Except.error e →
      Ev.fetchError c e ∈ (fetch_trends_data fetchO qs months).1) ∧
    (fetch_trends_data fetchO qs months).2 =
      (if (successTables fetchO (get_timeframe_string months) (chunkList qs)).isEmpty
       then none
       else some (concatDedup
         (successTables fetchO (get_timeframe_string months) (chunkList qs)))) := by
  refine ⟨?_, ?_, ?_⟩
  · simpa [fetch_trends_data] using
      fetchLoop_report_count fetchO (get_timeframe_string months)
        (chunkList qs).length (chunkList qs) 0
  · intro c hc e he
    simpa [fetch_trends_data] using
      (fetchLoop_terminal fetchO (get_timeframe_string months)
        (chunkList qs).length (chunkList qs) 0 c hc).2 e he
  · simp [fetch_trends_data, fetchLoop_eq]

/-- Witness for C5: a single always-failing batch is reported, its error is
logged, and the result is the no-data sentinel. -/
theorem failed_batch_skipped_pipeline_continues_witness :
    ((fetch_trends_data alwaysFail ["a"] 12).1.filter isReportEv).length =
      (chunkList ["a"]).length ∧
    Ev.fetchError ["a"] "429" ∈ (fetch_trends_data alwaysFail ["a"] 12).1 :=
  ⟨(failed_batch_skipped_pipeline_continues alwaysFail ["a"] 12).1,
   (failed_batch_skipped_pipeline_continues alwaysFail ["a"] 12).2.1 ["a"]
     (by rw [chunkList_cons]; simp) "429" rfl⟩

/-- **C6.** When every batch fetch fails, no table is collected:
`fetch_trends_data` returns the `None` sentinel instead of a merged table,
and `main` informs the user (`MainOut.noData`, the warning branch of line
170) — in particular the success branch that offers the CSV download is
never reached, so no export payload is produced. -/
theorem all_batches_fail_no_data (fetchO : List String → String → Except String DTable)
    (months : Int) (col0 : List (Option String))
    (h1 : loadQueries col0 ≠ [])
    (h2 : ∀ c ∈ chunkList (loadQueries col0),
      ∃ e, fetchO c (get_timeframe_string months) = Except.error e) :
    (fetch_trends_data fetchO (loadQueries col0) months).2 = none ∧
    (runMain fetchO months col0).1 = MainOut.noData := by
  have hs := successTables_eq_nil fetchO (get_timeframe_string months)
    (chunkList (loadQueries col0)) h2
  have hnone : (fetch_trends_data fetchO (loadQueries col0) months).2 = none := by
    simp [fetch_trends_data, fetchLoop_eq, hs]
  refine ⟨hnone, ?_⟩
  simp [runMain, h1, hnone]

/-- Witness for C6: one query, an oracle that always fails. -/
theorem all_batches_fail_no_data_witness :
    (fetch_trends_data alwaysFail (loadQueries [some "a"]) 12).2 = none ∧
    (runMain alwaysFail 12 [some "a"]).1 = MainOut.noData :=
  all_batches_fail_no_data alwaysFail 12 [some "a"] (by decide)
    (fun _ _ => ⟨"429", rfl⟩)

/-- **C8, counterexample.** The claim places each batch's progress report
after that batch's fetch has finished or raised; in the code (lines 48-56)
the progress update happens at the start of the iteration, before the
pytrends call, so the trace of a one-batch run already violates the claimed
ordering. -/
theorem report_before_fetch_cex :
    ¬ (reportsAfterFetch [] (fetch_trends_data alwaysFail ["a"] 12).1 = true) := by
  have ht : (fetch_trends_data alwaysFail ["a"] 12).1 =
      [Ev.report 1 1 ["a"], Ev.fetchError ["a"] "429"] := by
    simp [fetch_trends_data, fetchLoop, chunkList_cons, chunkList_nil, alwaysFail]
  rw [ht]
  decide

/-- **C8, amended.** The progress reporter is invoked exactly once per batch,
synchronously, at the start of processing the batch — before, not after, that
batch's fetch: the trace is exactly, per batch in order, a report followed by
the batch's fetch outcome, and the number of reports equals the number of
batches. -/
theorem report_once_per_batch_before_fetch
    (fetchO : List String → String → Except String DTable)
    (qs : List String) (months : Int) :
    (fetch_trends_data fetchO qs months).1 =
      loopTrace fetchO (get_timeframe_string months) (chunkList qs).length
        (chunkList qs) ∧
    ((fetch_trends_data fetchO qs months).1.filter isReportEv).length =
      (chunkList qs).length := by
  constructor
  · simp [fetch_trends_data, loopTrace, fetchLoop_eq, List.enum]
  · simpa [fetch_trends_data] using
      fetchLoop_report_count fetchO (get_timeframe_string months)
        (chunkList qs).length (chunkList qs) 0

/-! ## Merger lemmas and claims C2, C7 -/

theorem reindexedCols_names (newIdx : List String) (t : DTable) :
    (reindexedCols newIdx t).map Prod.fst = t.cols.map Prod.fst := by
  simp [reindexedCols, List.map_map, Function.comp]

theorem dedupColsAux_names_nodup (l : List (String × List (Option Int))) :
    ∀ seen, ((dedupColsAux seen l).map Prod.fst).Nodup ∧
      ∀ n ∈ (dedupColsAux seen l).map Prod.fst, n ∉ seen := by
  induction l with
  | nil => intro seen; simp [dedupColsAux]
  | cons c cs ih =>
      intro seen
      by_cases hc : c.1 ∈ seen
      · rw [dedupColsAux, if_pos (by simpa using hc)]
        exact ih seen
      · rw [dedupColsAux, if_neg (by simpa using hc)]
        obtain ⟨hnd, hni⟩ := ih (c.1 :: seen)
        refine ⟨?_, ?_⟩
        · simp only [List.map_cons, List.nodup_cons]
          exact ⟨fun hmem => (hni c.1 hmem) (List.mem_cons_self _ _), hnd⟩
        · intro n hn
          simp only [List.map_cons, List.mem_cons] at hn
          rcases hn with rfl | hn
          · exact hc
          · exact fun hmem => (hni n hn) (List.mem_cons_of_mem _ hmem)

theorem dedupColsAux_filter (n : String) :
    ∀ (l : List (String × List (Option Int))) (seen : List String),
      (dedupColsAux seen l).filter (fun c => c.1 == n) =
        (if n ∈ seen then [] else (l.find? (fun c => c.1 == n)).toList) := by
  intro l
  induction l with
  | nil => intro seen; simp [dedupColsAux]
  | cons c cs ih =>
      intro seen
      by_cases hc : c.1 ∈ seen
      · rw [dedupColsAux, if_pos (by simpa using hc), ih seen]
        by_cases hn : c.1 = n
        · subst hn
          simp [hc]
        · simp [List.find?_cons, beq_eq_false_iff_ne.2 hn]
      · rw [dedupColsAux, if_neg (by simpa using hc), List.filter_cons,
          ih (c.1 :: seen)]
        by_cases hn : c.1 = n
        · subst hn
          rw [if_pos (by simp)]
          simp [hc, List.find?_cons]
        · rw [if_neg (by simp [beq_eq_false_iff_ne.2 hn])]
          have hne : ¬ (n = c.1) := fun h => hn h.symm
          simp [List.find?_cons, beq_eq_false_iff_ne.2 hn, List.mem_cons, hne]

theorem dedupColsAux_of_nodup :
    ∀ (l : List (String × List (Option Int))) (seen : List String),
      (l.map Prod.fst).Nodup →
      (∀ n ∈ l.map Prod.fst, n ∉ seen) →
      dedupColsAux seen l = l := by
  intro l
  induction l with
  | nil => intro seen _ _; rfl
  | cons c cs ih =>
      intro seen hnd hdisj
      have hc : c.1 ∉ seen := hdisj c.1 (by simp)
      rw [dedupColsAux, if_neg (by simpa using hc)]
      congr 1
      apply ih (c.1 :: seen) (List.nodup_cons.1 hnd).2
      intro n hn hmem
      rcases List.mem_cons.1 hmem with h | h
      · exact (List.nodup_cons.1 hnd).1 (h ▸ hn)
      · exact (hdisj n (List.mem_cons_of_mem _ hn)) h

/-- **C2.** The merged table has pairwise distinct column names, and for every
name the retained column is exactly the first column bearing that name in the
left-to-right (batch-order) concatenation: filtering the merged columns by any
name yields precisely the first match of the pre-dedup concatenation. -/
theorem merger_dedup_first_occurrence (ts : List DTable) (_h : ts ≠ []) :
    ((concatDedup ts).cols.map Prod.fst).Nodup ∧
    ∀ n : String, (concatDedup ts).cols.filter (fun c => c.1 == n) =
      ((concatCols ts).find? (fun c => c.1 == n)).toList := by
  constructor
  · exact (dedupColsAux_names_nodup (concatCols ts) []).1
  · intro n
    have := dedupColsAux_filter n (concatCols ts) []
    simpa using this

/-- Witness for C2: two tables sharing the column name `a`. -/
theorem merger_dedup_first_occurrence_witness :
    ((concatDedup [wTable1, wTable1]).cols.map Prod.fst).Nodup ∧
    (concatDedup [wTable1, wTable1]).cols.filter (fun c => c.1 == "a") =
      ((concatCols [wTable1, wTable1]).find? (fun c => c.1 == "a")).toList :=
  ⟨(merger_dedup_first_occurrence [wTable1, wTable1] (by decide)).1,
   (merger_dedup_first_occurrence [wTable1, wTable1] (by decide)).2 "a"⟩

/-- **C7, counterexample.** The claim quantifies over any two input tables
with disjoint column-name sets; but the duplicate-column removal of line 75
also removes duplicates occurring inside a single table, so for a first table
that itself carries two columns named `a` the merged column order is not
first-table columns followed by second-table columns. -/
theorem merger_order_internal_dup_cex :
    (∀ n ∈ dupTable.cols.map Prod.fst, n ∉ otherTable.cols.map Prod.fst) ∧
    (concatDedup [dupTable, otherTable]).cols.map Prod.fst ≠
      dupTable.cols.map Prod.fst ++ otherTable.cols.map Prod.fst := by
  decide

/-- **C7, amended.** For two input tables whose column names are pairwise
distinct within each table and disjoint across the tables, the merged column
order is exactly the first table's columns (in order) followed by the second
table's columns (in order). -/
theorem merger_disjoint_order_preserving (t1 t2 : DTable)
    (h1 : (t1.cols.map Prod.fst).Nodup) (h2 : (t2.cols.map Prod.fst).Nodup)
    (h3 : ∀ n ∈ t1.cols.map Prod.fst, n ∉ t2.cols.map Prod.fst) :
    (concatDedup [t1, t2]).cols.map Prod.fst =
      t1.cols.map Prod.fst ++ t2.cols.map Prod.fst := by
  have hcols : concatCols [t1, t2] =
      reindexedCols (concatIdx [t1, t2]) t1 ++ reindexedCols (concatIdx [t1, t2]) t2 := by
    simp [concatCols]
  have hnames : (concatCols [t1, t2]).map Prod.fst =
      t1.cols.map Prod.fst ++ t2.cols.map Prod.fst := by
    rw [hcols, List.map_append, reindexedCols_names, reindexedCols_names]
  have hnd : ((concatCols [t1, t2]).map Prod.fst).Nodup := by
    rw [hnames]
    exact h1.append h2 (fun a ha hb => h3 a ha hb)
  have hid : dedupColsAux [] (concatCols [t1, t2]) = concatCols [t1, t2] :=
    dedupColsAux_of_nodup _ [] hnd (fun n _ => List.not_mem_nil n)
  show (dedupColsAux [] (concatCols [t1, t2])).map Prod.fst = _
  rw [hid, hnames]

/-- Witness for C7 (amended): disjoint one-column tables `a` and `b`. -/
theorem merger_disjoint_order_preserving_witness :
    (concatDedup [wTable1, wTable2]).cols.map Prod.fst =
      wTable1.cols.map Prod.fst ++ wTable2.cols.map Prod.fst :=
  merger_disjoint_order_preserving wTable1 wTable2 (by decide) (by decide)
    (by decide)

/-! ## CSV reader/writer lemmas and claim C9 -/

theorem mk_data (s : String) : String.mk s.data = s := rfl

theorem csvStep_raw (f : List Char) :
    ∀ cur rec recs, (∀ c ∈ f, ¬ c = ',' ∧ ¬ c = '"' ∧ ¬ c = '\n') →
      List.foldl csvStep ⟨CMode.raw, cur, rec, recs⟩ f =
        ⟨CMode.raw, cur ++ f, rec, recs⟩ := by
  induction f with
  | nil => intro cur rec recs _; simp
  | cons c cs ih =>
      intro cur rec recs hf
      obtain ⟨h1, _, h3⟩ := hf c (List.mem_cons_self _ _)
      rw [List.foldl_cons]
      have hstep : csvStep ⟨CMode.raw, cur, rec, recs⟩ c =
          ⟨CMode.raw, cur ++ [c], rec, recs⟩ := by
        simp only [csvStep]
        rw [if_neg h1, if_neg h3]
      rw [hstep, ih (cur ++ [c]) rec recs
        (fun d hd => hf d (List.mem_cons_of_mem _ hd))]
      simp

theorem csvStep_quoted (f : List Char) :
    ∀ cur rec recs,
      List.foldl csvStep ⟨CMode.quoted, cur, rec, recs⟩ (escField f) =
        ⟨CMode.quoted, cur ++ f, rec, recs⟩ := by
  induction f with
  | nil => intro cur rec recs; simp [escField]
  | cons c cs ih =>
      intro cur rec recs
      by_cases hq : c = '"'
      · subst hq
        rw [show escField ('"' :: cs) = '"' :: '"' :: escField cs from by
          simp [escField]]
        rw [List.foldl_cons, List.foldl_cons]
        have h1 : csvStep ⟨CMode.quoted, cur, rec, recs⟩ '"' =
            ⟨CMode.postq, cur, rec, recs⟩ := rfl
        have h2 : csvStep ⟨CMode.postq, cur, rec, recs⟩ '"' =
            ⟨CMode.quoted, cur ++ ['"'], rec, recs⟩ := rfl
        rw [h1, h2, ih]
        simp
      · rw [show escField (c :: cs) = c :: escField cs from by simp [escField, hq]]
        rw [List.foldl_cons]
        have h1 : csvStep ⟨CMode.quoted, cur, rec, recs⟩ c =
            ⟨CMode.quoted, cur ++ [c], rec, recs⟩ := by
          simp only [csvStep]
          rw [if_neg hq]
        rw [h1, ih]
        simp

theorem csvStep_field (f : List Char) (rec : List (List Char))
    (recs : List (List (List Char))) :
    List.foldl csvStep ⟨CMode.start, [], rec, recs⟩ (quoteField f) =
      ⟨if needsQuote f then CMode.postq
        else if f = [] then CMode.start else CMode.raw, f, rec, recs⟩ := by
  by_cases hq : needsQuote f
  · rw [quoteField, if_pos hq, if_pos hq, List.foldl_cons]
    have h0 : csvStep ⟨CMode.start, [], rec, recs⟩ '"' =
        ⟨CMode.quoted, [], rec, recs⟩ := rfl
    rw [h0, List.foldl_append, csvStep_quoted, List.foldl_cons, List.foldl_nil]
    rfl
  · rw [quoteField, if_neg hq, if_neg hq]
    have hall : ∀ c ∈ f, ¬ c = ',' ∧ ¬ c = '"' ∧ ¬ c = '\n' := by
      intro c hc
      refine ⟨fun h => hq ?_, fun h => hq ?_, fun h => hq ?_⟩ <;>
      · simp only [needsQuote, List.any_eq_true]
        exact ⟨c, hc, by simp [h]⟩
    cases f with
    | nil => simp
    | cons c cs =>
        obtain ⟨h1, h2, h3⟩ := hall c (List.mem_cons_self _ _)
        rw [if_neg (by simp), List.foldl_cons]
        have hstep : csvStep ⟨CMode.start, [], rec, recs⟩ c =
            ⟨CMode.raw, [c], rec, recs⟩ := by
          simp only [csvStep]
          rw [if_neg h2, if_neg h1, if_neg h3]
          rfl
        rw [hstep, csvStep_raw cs [c] rec recs
          (fun d hd => hall d (List.mem_cons_of_mem _ hd))]
        rfl

theorem csvStep_field_comma (f : List Char) (rec : List (List Char))
    (recs : List (List (List Char))) :
    List.foldl csvStep ⟨CMode.start, [], rec, recs⟩ (quoteField f ++ [',']) =
      ⟨CMode.start, [], rec ++ [f], recs⟩ := by
  rw [List.foldl_append, csvStep_field]
  by_cases hq : needsQuote f
  · rw [if_pos hq]; rfl
  · rw [if_neg hq]
    by_cases hn : f = []
    · rw [if_pos hn, List.foldl_cons, List.foldl_nil]
      subst hn; rfl
    · rw [if_neg hn]; rfl

theorem csvStep_field_newline (f : List Char) (rec : List (List Char))
    (recs : List (List (List Char))) :
    List.foldl csvStep ⟨CMode.start, [], rec, recs⟩ (quoteField f ++ ['\n']) =
      ⟨CMode.start, [], [], recs ++ [rec ++ [f]]⟩ := by
  rw [List.foldl_append, csvStep_field]
  by_cases hq : needsQuote f
  · rw [if_pos hq]; rfl
  · rw [if_neg hq]
    by_cases hn : f = []
    · rw [if_pos hn, List.foldl_cons, List.foldl_nil]
      subst hn; rfl
    · rw [if_neg hn]; rfl

theorem csvStep_record (r : List (List Char)) :
    r ≠ [] → ∀ (rec : List (List Char)) (recs : List (List (List Char))),
      List.foldl csvStep ⟨CMode.start, [], rec, recs⟩ (renderRecord r ++ ['\n']) =
        ⟨CMode.start, [], [], recs ++ [rec ++ r]⟩ := by
  induction r with
  | nil => intro h; exact absurd rfl h
  | cons f rest ih =>
      intro _ rec recs
      cases rest with
      | nil =>
          rw [show renderRecord [f] = quoteField f from rfl]
          exact csvStep_field_newline f rec recs
      | cons g gs =>
          rw [show renderRecord (f :: g :: gs) =
              quoteField f ++ ',' :: renderRecord (g :: gs) from rfl]
          rw [show (quoteField f ++ ',' :: renderRecord (g :: gs)) ++ ['\n'] =
              (quoteField f ++ [',']) ++ (renderRecord (g :: gs) ++ ['\n']) from by
            simp]
          rw [List.foldl_append, csvStep_field_comma,
            ih (by simp) (rec ++ [f]) recs]
          simp

theorem csvStep_doc (rs : List (List (List Char))) :
    (∀ r ∈ rs, r ≠ []) → ∀ recs,
      List.foldl csvStep ⟨CMode.start, [], [], recs⟩ (renderDoc rs) =
        ⟨CMode.start, [], [], recs ++ rs⟩ := by
  induction rs with
  | nil => intro _ recs; simp [renderDoc]
  | cons r rest ih =>
      intro h recs
      rw [show renderDoc (r :: rest) =
          (renderRecord r ++ ['\n']) ++ renderDoc rest from by simp [renderDoc]]
      rw [List.foldl_append, csvStep_record r (h r (List.mem_cons_self _ _)) [] recs,
        ih (fun x hx => h x (List.mem_cons_of_mem _ hx)) (recs ++ [[] ++ r])]
      simp

theorem parseDoc_renderDoc (rs : List (List (List Char)))
    (h : ∀ r ∈ rs, r ≠ []) : parseDoc (renderDoc rs) = rs := by
  have hfold := csvStep_doc rs h []
  simp only [parseDoc, csvInit, hfold]
  simp

theorem tableRecords_ne_nil (T : DTable) : ∀ r ∈ tableRecords T, r ≠ [] := by
  intro r hr
  rcases List.mem_cons.1 hr with rfl | hr
  · simp
  · rcases List.mem_map.1 hr with ⟨p, _, rfl⟩
    simp

theorem parseDoc_toCsv (T : DTable) :
    parseDoc (toCsv T).data = tableRecords T := by
  have hd : (toCsv T).data = renderDoc (tableRecords T) := rfl
  rw [hd, parseDoc_renderDoc _ (tableRecords_ne_nil T)]

theorem parsedHeader_toCsv (T : DTable) :
    parsedHeader (toCsv T) = T.idxName :: T.cols.map Prod.fst := by
  rw [parsedHeader, parseDoc_toCsv]
  simp [tableRecords, List.map_map, Function.comp, mk_data]

theorem parsedIdx_toCsv (T : DTable) : parsedIdx (toCsv T) = T.idx := by
  rw [parsedIdx, parseDoc_toCsv]
  simp only [tableRecords, List.tail_cons, List.map_map]
  have : (fun r => String.mk (List.headD r [])) ∘
      (fun p : Nat × String =>
        p.2.data :: T.cols.map (fun c => renderCell (c.2.getD p.1 none))) =
      Prod.snd := by
    funext p
    rfl
  rw [this, List.enum_map_snd]

/-- **C9.** Round-trip: exporting the merged table as CSV text (pandas
defaults: comma separator, minimal quoting, newline after every row) and
parsing the payload back with a standard CSV reader yields the same index
name, the same index values, and the same column names in the same order as
the pre-export merged table — for every non-empty input sequence, whatever
the query names and dates contain (commas, quotes and newlines are quoted
and unquoted faithfully). -/
theorem export_roundtrip (ts : List DTable) (_h : ts ≠ []) :
    parsedIdxName (toCsv (concatDedup ts)) = (concatDedup ts).idxName ∧
    parsedColNames (toCsv (concatDedup ts)) = (concatDedup ts).cols.map Prod.fst ∧
    parsedIdx (toCsv (concatDedup ts)) = (concatDedup ts).idx := by
  refine ⟨?_, ?_, parsedIdx_toCsv _⟩
  · rw [parsedIdxName, parsedHeader_toCsv]
    rfl
  · rw [parsedColNames, parsedHeader_toCsv]
    rfl

/-- Witness for C9: the merge of the two concrete disjoint tables. -/
theorem export_roundtrip_witness :
    parsedIdxName (toCsv (concatDedup [wTable1, wTable2])) =
      (concatDedup [wTable1, wTable2]).idxName ∧
    parsedColNames (toCsv (concatDedup [wTable1, wTable2])) =
      (concatDedup [wTable1, wTable2]).cols.map Prod.fst ∧
    parsedIdx (toCsv (concatDedup [wTable1, wTable2])) =
      (concatDedup [wTable1, wTable2]).idx :=
  export_roundtrip [wTable1, wTable2] (by decide)
